import Mathlib

/-!
Verification of the AceBase storage core (node.js file of the repository).

The definitions below are shallow embeddings of the functions of the source
file: `NodePath`, `_allowLock`, `NodeLock.lock`, `NodeCache`, `NodeAllocation`,
`_valueFitsInline`, `_serializeValue`, `_getValueBytes`, `getValueFromBinary`,
`_writeNode`/`_mergeNode` decision logic, `_write`'s chunk-table serialization
and `NodeReader.readHeader`'s chunk-table parser.

Paths: the helpers `getPathKeys` / `getPathInfo` / `getChildPath` live in
`./utils`, which is not part of the sources at hand.  Modelled from the spec:
a path such as `posts/1234/title` or `posts[3]` is represented by its sequence
of keys (string property keys and numeric array indexes); `getPathKeys`
returns that sequence, the parent path drops the last key, and a child path
appends one key.
-/

namespace AceBase

/-- A single key of a path: a property name or an array index. -/
inductive PathKey where
  | key (s : String)
  | idx (n : Nat)
deriving DecidableEq

/-- A path, represented by its key sequence (see the module comment: modelled
from the spec because `getPathKeys` of `./utils` is not among the sources). -/
abbrev Path := List PathKey

/-- Embedding of `NodePath(path).isDescendantOf(otherPath)` (source lines
464-471): `""` is an ancestor of everything, a path is not its own
descendant, and otherwise the other path's keys must be a prefix of this
path's keys. -/
def isDescendantOf (path otherPath : Path) : Bool :=
  if otherPath = [] then true
  else if path = otherPath then false
  else if otherPath.length > path.length then false
  else List.isPrefixOf otherPath path

/-- Embedding of `NodePath(path).isAncestorOf(otherPath)` (source lines
451-458). -/
def isAncestorOf (path otherPath : Path) : Bool :=
  if path = [] then true
  else if path = otherPath then false
  else if path.length > otherPath.length then false
  else List.isPrefixOf path otherPath

/-- Lock states of `NodeLock.LOCK_STATE` (source lines 548-555). -/
inductive LockState where
  | pending
  | locked
  | expired
  | done
deriving DecidableEq

/-- One entry of the module-level `_locks` list.  `waitingFor` is not a field
here: a request's conflict pointer is returned alongside the updated list by
`lockRequest` below, which mirrors how `NodeLock.lock` leaves the freshly
pushed lock `PENDING` with `waitingFor` set. -/
structure NLock where
  tid : String
  path : Path
  forWriting : Bool
  state : LockState
deriving DecidableEq

/-- Embedding of `_allowLock(path, tid, forWriting)` (source lines 496-516):
among the locks of a different transaction that are in state `LOCKED`, find
the first whose path is the same as or an ancestor of the requested path
while at least one of the two locks is for writing.  Returns the first such
conflicting lock, or `none` when the request may proceed. -/
def allowLock (locks : List NLock) (path : Path) (tid : String) (forWriting : Bool) :
    Option NLock :=
  (locks.filter fun otherLock =>
      otherLock.tid ≠ tid && otherLock.state = LockState.locked).find?
    fun otherLock =>
      (forWriting || otherLock.forWriting)
        && (path = otherLock.path || isDescendantOf path otherLock.path)

/-- Result of a fresh `NodeLock.lock(path, tid, forWriting, ...)` call
(source lines 591-661): the call either rejects because a lock of the same
transaction has expired, resolves at once with the lock granted (`LOCKED`),
or leaves the pushed request `PENDING` with its `waitingFor` pointer set. -/
inductive LockRequestResult where
  | rejectedExpired
  | granted (locks : List NLock)
  | pending (locks : List NLock) (waitingFor : NLock)
deriving DecidableEq

/-- Whether the request was granted immediately. -/
def LockRequestResult.isGranted : LockRequestResult → Bool
  | granted _ => true
  | _ => false

/-- Embedding of the fresh-request path of `NodeLock.lock` (source lines
591-661): reject when any `_locks` entry with the same tid is `EXPIRED`;
otherwise push the new `PENDING` lock, run `_allowLock`, and either mark the
lock `LOCKED` (granted) or keep it `PENDING` with `waitingFor` set to the
conflicting lock found. -/
def lockRequest (locks : List NLock) (path : Path) (tid : String) (forWriting : Bool) :
    LockRequestResult :=
  if locks.any fun l => l.tid = tid && l.state = LockState.expired then
    .rejectedExpired
  else
    let newLock : NLock := ⟨tid, path, forWriting, LockState.pending⟩
    let pushed := locks ++ [newLock]
    match allowLock pushed path tid forWriting with
    | none => .granted (locks ++ [⟨tid, path, forWriting, LockState.locked⟩])
    | some conflict => .pending pushed conflict

/-- The conflict condition exactly as claim C1 words it: a lock whose
transaction id differs from the requesting tid, whose state is `LOCKED`, and
whose path equals or is an ancestor of the requested path, with at least one
of the existing and requested locks being for writing. -/
def claimConflicts (path : Path) (tid : String) (forWriting : Bool) (l : NLock) : Bool :=
  l.tid ≠ tid && l.state = LockState.locked
    && (l.path = path || (l.path ≠ path && List.isPrefixOf l.path path))
    && (l.forWriting || forWriting)

/-!
Node address cache (`NodeCache`, source lines 43-169).

The JavaScript cache is the plain object `_nodeAddressCache` mapping path
strings to `NodeCacheEntry` objects, each wrapping a `NodeAddress` (or
`RemovedNodeAddress`) in its `address` field.  Two behaviours of the source
force `Option` fields into the embedding:

* `invalidate` passes the cache *entry* where an address is expected, so the
  property reads `address.path` / `.pageNr` / `.recordNr` evaluate to
  `undefined` (a `NodeCacheEntry` only has an `address` property);
* storing under an `undefined` path uses the JavaScript property key
  `String(undefined) = "undefined"`.

An `undefined` path is modelled as `none`; the resulting property key
(`"undefined"`) is modelled as the key `none`, kept distinct from genuine
paths.
-/

/-- A `NodeAddress` (or `RemovedNodeAddress`) as stored by the cache.
`removed` records whether the object is a `RemovedNodeAddress` instance;
`none` fields model `undefined` (see the section comment). -/
structure CachedAddress where
  removed : Bool
  path : Option Path
  pageNr : Option Nat
  recordNr : Option Nat
deriving DecidableEq

/-- A `NodeCacheEntry` (source lines 43-79); the timer fields have no
observable effect on the modelled operations. -/
structure NodeCacheEntry where
  address : CachedAddress
deriving DecidableEq

/-- The `_nodeAddressCache` object: property key (a path, or `none` for the
key `"undefined"`) to entry, keys unique, in insertion order. -/
abbrev Cache := List (Option Path × NodeCacheEntry)

/-- Property lookup on the cache object. -/
def cacheLookup (cache : Cache) (k : Option Path) : Option NodeCacheEntry :=
  (cache.find? fun e => e.1 = k).map (·.2)

/-- Property assignment on the cache object: replace in place or append. -/
def cacheAssign (cache : Cache) (k : Option Path) (entry : NodeCacheEntry) : Cache :=
  if cache.any fun e => e.1 = k then
    cache.map fun e => if e.1 = k then (k, entry) else e
  else
    cache ++ [(k, entry)]

/-- Property deletion on the cache object (`delete _nodeAddressCache[...]`). -/
def cacheDelete (cache : Cache) (k : Option Path) : Cache :=
  cache.filter fun e => e.1 ≠ k

/-- Embedding of `NodeCache.update(address)` (source lines 89-103): the root
path is never cached; an existing entry at the key is refreshed through
`NodeCacheEntry.update(pageNr, recordNr)`, which replaces its address with a
*plain* `NodeAddress` built from the entry's previous path and the new
numbers (source lines 66-74); otherwise a new entry wrapping the given
address is stored. -/
def nodeCacheUpdate (cache : Cache) (address : CachedAddress) : Cache :=
  if address.path = some [] then cache
  else
    match cacheLookup cache address.path with
    | some entry =>
        cacheAssign cache address.path
          ⟨⟨false, entry.address.path, address.pageNr, address.recordNr⟩⟩
    | none => cacheAssign cache address.path ⟨address⟩

/-- Embedding of `NodeCache.remove(address)` (source lines 109-115): deletes
the property at key `address.path`.  The argument is the value of the
`.path` property read off whatever object was passed (for `invalidate` that
object is a `NodeCacheEntry`, so the value is `undefined`, i.e. `none`). -/
def nodeCacheRemove (cache : Cache) (pathProp : Option Path) : Cache :=
  match cacheLookup cache pathProp with
  | some _ => cacheDelete cache pathProp
  | none => cache

/-- Embedding of `NodeCache.invalidate(path, markAsDeleted)` (source lines
122-137).  The filter predicate is `cachedPath === cachedPath ||
requestedPath.isAncestorOf(cachedPath)`: its first disjunct is a tautology,
so every cached key is selected (the second disjunct is short-circuited).
For each selected key the source reads `const address =
_nodeAddressCache[invalidatePath]` — a `NodeCacheEntry`, not an address — and
then either calls `update(new RemovedNodeAddress(address))`, where the
constructor reads the entry's nonexistent `.path`/`.pageNr`/`.recordNr`
properties (all `undefined`), or calls `remove(address)`, which looks up the
entry's nonexistent `.path` (again `undefined`). -/
def nodeCacheInvalidate (cache : Cache) (path : Path) (markAsDeleted : Bool) : Cache :=
  let _ := path
  let keys := (cache.map (·.1)).filter fun _ => true
  keys.foldl
    (fun acc k =>
      match cacheLookup acc k with
      | some _ =>
          if markAsDeleted then
            nodeCacheUpdate acc ⟨true, none, none, none⟩
          else
            nodeCacheRemove acc none
      | none => acc)
    cache

/-- Embedding of `NodeCache.find(path)` (source lines 144-154).  The removal
test is `entry instanceof RemovedNodeAddress`; the cache only ever stores
`NodeCacheEntry` values (every write goes through `update`), so the test is
always false and the entry's address is returned whenever the key is
present. -/
def nodeCacheFind (cache : Cache) (path : Path) : Option CachedAddress :=
  match cacheLookup cache (some path) with
  | none => none
  | some entry => some entry.address

/-!
Error handling of `Node.update` (source lines 1972-2319).

A settled JavaScript promise either resolved with a value or rejected with an
error.  The `.then` chain of `Node.update` ends in the `.catch` handler of
source lines 2313-2318; `eventDataLock.release()` / `lock.release()` call
`NodeLock.unlock`, which sets the lock's state to `DONE` and removes it from
the global list (source lines 663-676).
-/

/-- A settled promise. -/
inductive JsPromise (α : Type) where
  | resolved (value : α)
  | rejected (error : String)
deriving DecidableEq

/-- The two locks the `.catch` handler of `Node.update` may hold. -/
structure UpdateLockState where
  eventDataLock : Option NLock
  lock : Option NLock
deriving DecidableEq

/-- Releasing one (optional) lock: `NodeLock.unlock` marks it `DONE`. -/
def releaseLock : Option NLock → Option NLock
  | none => none
  | some l => some { l with state := LockState.done }

/-- Embedding of the `.catch` handler of `Node.update` (source lines
2313-2318): log the error, release `eventDataLock` and `lock` when held, and
`return false` — which settles the returned promise as *resolved* with
`false`. -/
def nodeUpdateCatch (st : UpdateLockState) (err : String) :
    JsPromise Bool × UpdateLockState :=
  let _ := err
  (JsPromise.resolved false, ⟨releaseLock st.eventDataLock, releaseLock st.lock⟩)

/-- The promise returned by `Node.update`: the result of the update chain
run through the final `.catch` (source lines 2312-2319). -/
def nodeUpdateResult (chain : JsPromise Bool) (st : UpdateLockState) :
    JsPromise Bool × UpdateLockState :=
  match chain with
  | .resolved v => (.resolved v, st)
  | .rejected e => nodeUpdateCatch st e

/-!
Allocations and the chunk table (source lines 202-363, 3512-3756,
1676-1861).
-/

/-- A `StorageAddressRange` (source lines 202-214). -/
structure StorageAddressRange where
  pageNr : Nat
  recordNr : Nat
  length : Nat
deriving DecidableEq

/-- `NodeAllocation.totalAddresses` (source lines 251-253):
`ranges.map(range => range.length).reduce((total, nr) => total + nr, 0)`. -/
def totalAddresses (ranges : List StorageAddressRange) : Nat :=
  (ranges.map (·.length)).foldl (· + ·) 0

/-- The inner loop of `NodeAllocation.normalize` (source lines 309-328):
scan the ranges after the current one for the first on the same page that is
adjacent to it, and absorb the current range's length into that one
(extending it downwards when the current range lies right before it). -/
def tryMergeAdjacent (range : StorageAddressRange) :
    List StorageAddressRange → Option (List StorageAddressRange)
  | [] => none
  | otherRange :: rest =>
    if otherRange.pageNr = range.pageNr
        ∧ otherRange.recordNr = range.recordNr + range.length then
      some ({ otherRange with
                length := otherRange.length + range.length
                recordNr := range.recordNr } :: rest)
    else if otherRange.pageNr = range.pageNr
        ∧ range.recordNr = otherRange.recordNr + otherRange.length then
      some ({ otherRange with length := otherRange.length + range.length } :: rest)
    else
      (tryMergeAdjacent range rest).map (otherRange :: ·)

theorem tryMergeAdjacent_length (range : StorageAddressRange)
    (l l₂ : List StorageAddressRange) (h : tryMergeAdjacent range l = some l₂) :
    l₂.length = l.length := by
  induction l generalizing l₂ with
  | nil => simp [tryMergeAdjacent] at h
  | cons o rest ih =>
    simp only [tryMergeAdjacent] at h
    split at h
    · cases h; simp
    · split at h
      · cases h; simp
      · cases hrec : tryMergeAdjacent range rest with
        | none => rw [hrec] at h; simp at h
        | some r₂ =>
          rw [hrec] at h
          simp only [Option.map_some'] at h
          cases h
          simp [ih r₂ hrec]

/-- Embedding of `NodeAllocation.normalize` (source lines 306-336): the
outer loop either merges the current range into a later adjacent one (and
reconsiders the same position after the splice) or keeps it and moves on. -/
def normalize : List StorageAddressRange → List StorageAddressRange
  | [] => []
  | range :: rest =>
    match h : tryMergeAdjacent range rest with
    | some rest₂ =>
        have : rest₂.length < rest.length + 1 := by
          rw [tryMergeAdjacent_length range rest rest₂ h]; omega
        normalize rest₂
    | none => range :: normalize rest
termination_by l => l.length

/-- One entry of `NodeAllocation.toChunkTable`'s result (source lines
349-363). -/
structure NodeChunkTableRange where
  type : Nat
  pageNr : Nat
  recordNr : Nat
  length : Nat
deriving DecidableEq

/-- Embedding of `NodeAllocation.toChunkTable` (source lines 258-276): a
single range of length 1 needs no chunk table (type 0); otherwise the first
range becomes a type-1 entry and every further range a type-2 entry. -/
def toChunkTable : List StorageAddressRange → List NodeChunkTableRange
  | [] => []
  | [range] =>
    if range.length = 1 then [⟨0, range.pageNr, range.recordNr, range.length⟩]
    else [⟨1, range.pageNr, range.recordNr, range.length⟩]
  | range :: rest =>
    ⟨1, range.pageNr, range.recordNr, range.length⟩
      :: rest.map fun r => ⟨2, r.pageNr, r.recordNr, r.length⟩

/-- Big-endian bytes of `DataView.setUint16` (the view truncates to 16
bits). -/
def u16be (n : Nat) : List Nat :=
  [n / 256 % 256, n % 256]

/-- Big-endian bytes of `DataView.setUint32`. -/
def u32be (n : Nat) : List Nat :=
  [n / 16777216 % 256, n / 65536 % 256, n / 256 % 256, n % 256]

/-- `DataView.getUint16` on two bytes. -/
def readU16 (hi lo : Nat) : Nat := hi * 256 + lo

/-- `DataView.getUint32` on four bytes. -/
def readU32 (a b c d : Nat) : Nat := ((a * 256 + b) * 256 + c) * 256 + d

/-- Embedding of the chunk-table serialization of `_write` (source lines
3651-3676): for each chunk-table range write the 1-byte entry type, then for
type 1 the 2-byte `range.length`, for type 2 the 4-byte page nr, 2-byte
record nr and 2-byte length.  A type-0 entry writes its byte without
advancing the offset, so it is overwritten by the terminator that follows:
the terminator byte 0 plus the 2-byte `lastChunkSize` always end the table.
`toChunkTable` only produces types 0, 1 and 2 (any other type would throw
`"Unsupported range type"`). -/
def chunkTableBytes (ct : List NodeChunkTableRange) (lastChunkSize : Nat) : List Nat :=
  (ct.foldl
    (fun acc range =>
      if range.type = 1 then acc ++ 1 :: u16be range.length
      else if range.type = 2 then
        acc ++ 2 :: (u32be range.pageNr ++ u16be range.recordNr ++ u16be range.length)
      else acc)
    []) ++ 0 :: u16be lastChunkSize

/-- Byte 0 of a record header (source lines 3643-3649): the value-type
nibble, with `FLAG_KEY_TREE` (0x40) or-ed in when the record body is a key
tree. -/
def headerByte0 (valueType : Nat) (hasKeyTree : Bool) : Nat :=
  if hasKeyTree then valueType ||| 64 else valueType

/-- Embedding of the chunk-table parsing loop of `NodeReader.readHeader`
(source lines 1780-1845), seeded with
`firstRange = StorageAddressRange(address.pageNr, address.recordNr, 1)`.
A type-1 entry overwrites the first range's length with its 2-byte payload;
a type-2 entry appends an explicit range; a type-3 entry appends a
contiguous-pages range of `totalPages * pageSize` records; type 0 ends the
loop, after which the 2-byte last-chunk length is read.  (When fewer than 11
bytes remain, the source first reads further records of the allocation into
the buffer; the byte list passed here stands for that completed buffer.)
Returns the ranges, the last-chunk length and the unconsumed bytes. -/
def parseChunkTable (pageSize : Nat) (firstRange : StorageAddressRange)
    (ranges : List StorageAddressRange) :
    List Nat → Option (List StorageAddressRange × Nat × List Nat)
  | 0 :: hi :: lo :: rest => some (firstRange :: ranges, readU16 hi lo, rest)
  | 1 :: hi :: lo :: rest =>
      parseChunkTable pageSize { firstRange with length := readU16 hi lo } ranges rest
  | 2 :: a :: b :: c :: d :: e :: f :: g :: h :: rest =>
      parseChunkTable pageSize firstRange
        (ranges ++ [⟨readU32 a b c d, readU16 e f, readU16 g h⟩]) rest
  | 3 :: a :: b :: c :: d :: e :: f :: rest =>
      parseChunkTable pageSize firstRange
        (ranges ++ [⟨readU32 a b c d, 0, readU16 e f * pageSize⟩]) rest
  | _ => none

/-!
Values and the child-entry codec (source lines 23-41, 1361-1458, 2686-2710,
3314-3498).

JavaScript numbers are IEEE-754 doubles.  Modelled from the spec:
`numberToBytes` / `bytesToNumber` live in `./utils`, which is not among the
sources; per the spec a NUMBER's inline payload is its 8-byte IEEE-754
double, big-endian, and a DATETIME's is the 8-byte signed millisecond epoch.
A double is represented opaquely by its 8-byte big-endian bit pattern; the
integers 0 to 15 — the only numbers whose *value* the serializer inspects
(`kvp.ref >= 0 && kvp.ref <= 15 && Math.floor(kvp.ref) === kvp.ref`, source
line 3343) — are carried by a dedicated constructor, with their well-known
bit patterns tabulated. -/

/-- A JavaScript number: an integer 0..15, or any other finite double given
by its 8-byte big-endian IEEE-754 pattern. -/
inductive JSNum where
  | tiny (n : Fin 16)
  | big (bits : List Nat)
deriving DecidableEq

/-- The IEEE-754 double bit patterns (big-endian bytes) of the integers
0..15, as a lookup table. -/
def smallDoubleBitsTable : List (List Nat) :=
  [[0, 0, 0, 0, 0, 0, 0, 0],
   [63, 240, 0, 0, 0, 0, 0, 0],
   [64, 0, 0, 0, 0, 0, 0, 0],
   [64, 8, 0, 0, 0, 0, 0, 0],
   [64, 16, 0, 0, 0, 0, 0, 0],
   [64, 20, 0, 0, 0, 0, 0, 0],
   [64, 24, 0, 0, 0, 0, 0, 0],
   [64, 28, 0, 0, 0, 0, 0, 0],
   [64, 32, 0, 0, 0, 0, 0, 0],
   [64, 34, 0, 0, 0, 0, 0, 0],
   [64, 36, 0, 0, 0, 0, 0, 0],
   [64, 38, 0, 0, 0, 0, 0, 0],
   [64, 40, 0, 0, 0, 0, 0, 0],
   [64, 42, 0, 0, 0, 0, 0, 0],
   [64, 44, 0, 0, 0, 0, 0, 0],
   [64, 46, 0, 0, 0, 0, 0, 0]]

/-- The IEEE-754 double bit pattern (big-endian bytes) of an integer
0..15. -/
def smallDoubleBits (n : Fin 16) : List Nat :=
  smallDoubleBitsTable.getD n []

/-- Modelled from the spec: `numberToBytes` of `./utils` — the 8-byte
big-endian IEEE-754 pattern of the number. -/
def numberToBytes : JSNum → List Nat
  | .tiny n => smallDoubleBits n
  | .big bits => bits

/-- Modelled from the spec: `bytesToNumber` of `./utils` — the double whose
8-byte big-endian IEEE-754 pattern is the given bytes. -/
def bytesToNumber (bs : List Nat) : JSNum :=
  match (List.finRange 16).find? fun n => smallDoubleBits n = bs with
  | some n => .tiny n
  | none => .big bs

/-- Big-endian bytes (most significant first) of a natural number in `k`
bytes. -/
def natBE : (k : Nat) → Nat → List Nat
  | 0, _ => []
  | k + 1, n => n / 256 ^ k % 256 :: natBE k n

/-- A big-endian byte list read back as a natural number. -/
def beToNat (bs : List Nat) : Nat :=
  bs.foldl (fun acc b => acc * 256 + b) 0

/-- Modelled from the spec: the DATETIME inline payload is the 8-byte signed
millisecond epoch, big-endian (`numberToBytes` applied to
`Date.getTime()`). -/
def int64be (ms : Int) : List Nat :=
  natBE 8 (ms % (18446744073709551616 : Int)).toNat

/-- Modelled from the spec: reading a DATETIME payload back as a signed
64-bit millisecond epoch (`bytesToNumber`, then `new Date(time)`). -/
def beToInt64 (bs : List Nat) : Int :=
  let n := beToNat bs
  if n ≥ 9223372036854775808 then (n : Int) - 18446744073709551616 else (n : Int)

/-- A record address as carried by child entries and internal node
references (`NodeAddress`, source lines 171-190). -/
structure RecAddr where
  path : Path
  pageNr : Nat
  recordNr : Nat
deriving DecidableEq

/-- A JavaScript value as handled by the child-value code paths.  Strings
and path references are represented by their UTF-8 bytes (`textEncoder`);
binaries by the bytes of the `ArrayBuffer`.  For arrays and plain objects
only the child count is observable in the embedded code paths
(`value.length === 0` / `Object.keys(value).length === 0`): a non-empty
composite leaves the modelled fragment through the separate-record write. -/
inductive JSValue where
  | bool (b : Bool)
  | num (n : JSNum)
  | date (ms : Int)
  | str (utf8 : List Nat)
  | pathRef (utf8 : List Nat)
  | binary (bytes : List Nat)
  | array (count : Nat)
  | object (keyCount : Nat)
  | internalRef (valueType : Nat) (address : RecAddr)
deriving DecidableEq

/-- Embedding of `_valueFitsInline(storage, value)` (source lines
2686-2710).  For an `ArrayBuffer` the source compares `value.length <
maxInlineValueSize`: an `ArrayBuffer` has no `length` property (only
`byteLength`), so the comparison is `undefined < maxInlineValueSize`, which
is false for every binary. -/
def valueFitsInline (maxInlineValueSize : Nat) : JSValue → Bool
  | .num _ => true
  | .bool _ => true
  | .date _ => true
  | .internalRef _ _ => true
  | .str s => s.length < maxInlineValueSize
  | .pathRef p => p.length < maxInlineValueSize
  | .binary _ => false
  | .array count => count = 0
  | .object keyCount => keyCount = 0

/-- The fits-inline test as claim C6 states it, for comparison with
`valueFitsInline`: it differs only on binaries, which the claim accepts when
their byte length is below `maxInlineValueSize`. -/
def claimFitsInline (maxInlineValueSize : Nat) : JSValue → Bool
  | .num _ => true
  | .bool _ => true
  | .date _ => true
  | .internalRef _ _ => true
  | .str s => s.length < maxInlineValueSize
  | .pathRef p => p.length < maxInlineValueSize
  | .binary b => b.length < maxInlineValueSize
  | .array count => count = 0
  | .object keyCount => keyCount = 0

/-- A byte buffer as passed around by the serializer: a plain array of
numbers, or an `ArrayBuffer` (which has `byteLength` but neither `length`
nor `forEach`). -/
inductive JsBytes where
  | arr (bs : List Nat)
  | abuf (bs : List Nat)
deriving DecidableEq

/-- A `SerializedKeyValue` (source lines 3314-3329).  `isSKV` records
whether the object was built by `create` as a genuine `SerializedKeyValue`
instance; the inline-`ArrayBuffer` branch of `_serializeValue` returns a
plain object literal instead (source line 3439). -/
structure SerializedKeyValue where
  key : Option String := none
  index : Option Nat := none
  type : Nat
  bool : Option Bool := none
  ref : Option JSValue := none
  binary : Option (List Nat) := none
  record : Option RecAddr := none
  bytes : Option JsBytes := none
  isSKV : Bool := true
deriving DecidableEq

/-- A key or an array index, as `keyOrIndex` flows through the writer. -/
abbrev KeyOrIndex := Sum Nat String

/-- Result of `_serializeValue`: a synchronous `SerializedKeyValue` (or the
plain object of the inline-`ArrayBuffer` branch), or the asynchronous path
that writes the value into a separate record via `_lockAndWriteNode` and is
outside this model. -/
inductive SerResult where
  | skv (s : SerializedKeyValue)
  | record (val : JSValue)
deriving DecidableEq

/-- Embedding of `_serializeValue(storage, path, keyOrIndex, val, parentTid)`
(source lines 3391-3498).  `create(details)` fills `index` (for a numeric
`keyOrIndex`) or `key`, and sets `ref := val`. -/
def serializeValue (maxInlineValueSize : Nat) (keyOrIndex : KeyOrIndex)
    (val : JSValue) : SerResult :=
  let create : SerializedKeyValue → SerializedKeyValue := fun details =>
    match keyOrIndex with
    | .inl i => { details with index := some i, ref := some val }
    | .inr k => { details with key := some k, ref := some val }
  match val with
  | .date ms => .skv (create { type := 6, bytes := some (.arr (int64be ms)) })
  | .array count =>
      if count = 0 then .skv (create { type := 2, bytes := some (.arr []) })
      else .record val
  | .internalRef t address => .skv (create { type := t, record := some address })
  | .binary bs =>
      if bs.length > maxInlineValueSize then .record val
      else .skv { type := 8, bytes := some (.abuf bs), isSKV := false }
  | .pathRef p =>
      if p.length > maxInlineValueSize then .record val
      else .skv (create { type := 9, binary := some p })
  | .object keyCount =>
      if keyCount = 0 then .skv (create { type := 1, bytes := some (.arr []) })
      else .record val
  | .num n => .skv (create { type := 3, bytes := some (.arr (numberToBytes n)) })
  | .bool b => .skv (create { type := 4, bool := some b })
  | .str s =>
      if s.length > maxInlineValueSize then .record val
      else .skv (create { type := 5, binary := some s })

/-- Embedding of `_getValueBytes(kvp)` (source lines 3335-3380).  The output
is the plain JavaScript number array `bytes` (hence `Int`: for an inline
payload of length 0 the length byte is `128 | (0 - 1) = -1`).  A tiny value
is emitted for booleans, integer numbers 0..15, empty string binaries, and
empty array/object refs; a record address becomes the 6-byte big-endian
address; everything else is an inline payload `kvp.bytes || kvp.binary`.
When that payload is an `ArrayBuffer` (the plain-object return of
`_serializeValue`'s inline-binary branch), `data.length` is `undefined` and
`data.forEach` does not exist: the call throws a `TypeError`. -/
def getValueBytes (kvp : SerializedKeyValue) : Except String (List Int) :=
  let tinyValue : Int :=
    if kvp.type = 4 then (if kvp.bool = some true then 1 else 0)
    else if kvp.type = 3 then
      match kvp.ref with
      | some (.num (.tiny n)) => (n : Nat)
      | _ => -1
    else if kvp.type = 5 then
      match kvp.binary with
      | some [] => 0
      | _ => -1
    else if kvp.type = 2 then
      match kvp.ref with
      | some (.array 0) => 0
      | _ => -1
    else if kvp.type = 1 then
      match kvp.ref with
      | some (.object 0) => 0
      | _ => -1
    else -1
  if tinyValue ≥ 0 then
    .ok [(kvp.type * 16 : Nat) + tinyValue, 64]
  else
    match kvp.record with
    | some address =>
        .ok (((kvp.type * 16 :: 192 :: u32be address.pageNr ++ u16be address.recordNr)
          : List Nat).map (Int.ofNat))
    | none =>
        let inline : List Nat → Except String (List Int) := fun data =>
          .ok ((kvp.type * 16 : Int)
            :: (if data.length = 0 then (-1 : Int)
                else ((128 ||| (data.length - 1) : Nat) : Int))
            :: data.map Int.ofNat)
        match kvp.bytes with
        | some (.arr data) => inline data
        | some (.abuf _) => .error "TypeError: data.forEach is not a function"
        | none =>
            match kvp.binary with
            | some data => inline data
            | none => .error "TypeError: data is undefined"

/-- The bytes as they land in the record: JavaScript coerces each array
element to an unsigned 8-bit value when the array is copied into a
`Uint8Array`. -/
def toUint8 (xs : List Int) : List Nat :=
  xs.map fun i => (i % 256).toNat

/-- What `getValueFromBinary` (source lines 1361-1458) delivers for one
child entry: the value-type nibble, a decoded value for tiny and inline
entries, or an address for record entries. -/
structure DecodedChild where
  type : Nat
  value : Option JSValue
  address : Option RecAddr
deriving DecidableEq

/-- Embedding of the value part of `getValueFromBinary(child, binary, index)`
(source lines 1361-1458), reading one child entry's value from `binary`.
`parent` is `this.address` of the reading `NodeReader`; the child path is
the parent path extended by the key or index (`getChildPath`, see the module
comment on paths).  A record entry's stored address is compared against the
parent's address with `NodeAddress.equals` (source lines 183-190), which
also compares the `path` fields. -/
def getValueFromBinary (parent : RecAddr) (isArray : Bool)
    (keyOrIndex : KeyOrIndex) (binary : List Nat) : Except String DecodedChild :=
  match binary with
  | b0 :: b1 :: rest =>
    let ctype := b0 / 16
    let tinyValue := b0 % 16
    if ctype = 0 then
      .error "corrupt: removed child data is not implemented yet"
    else if b1 / 64 = 1 then
      -- tiny value
      if ctype = 4 then .ok ⟨ctype, some (.bool (tinyValue = 1)), none⟩
      else if ctype = 3 then
        .ok ⟨ctype, some (.num (.tiny ⟨tinyValue, Nat.mod_lt b0 (by omega)⟩)), none⟩
      else if ctype = 5 then .ok ⟨ctype, some (.str []), none⟩
      else if ctype = 2 then .ok ⟨ctype, some (.array 0), none⟩
      else if ctype = 1 then .ok ⟨ctype, some (.object 0), none⟩
      else if ctype = 8 then .ok ⟨ctype, some (.binary []), none⟩
      else if ctype = 9 then .ok ⟨ctype, some (.pathRef []), none⟩
      else .error "Tiny value deserialization method missing"
    else if b1 / 64 = 2 then
      -- inline value
      let length := b1 % 64 + 1
      if rest.length < length then .error "truncated data"
      else
        let bytes := rest.take length
        if ctype = 3 then .ok ⟨ctype, some (.num (bytesToNumber bytes)), none⟩
        else if ctype = 5 then .ok ⟨ctype, some (.str bytes), none⟩
        else if ctype = 6 then .ok ⟨ctype, some (.date (beToInt64 bytes)), none⟩
        else if ctype = 2 then .error "Inline array deserialization not implemented"
        else if ctype = 1 then .error "Inline object deserialization not implemented"
        else if ctype = 8 then .ok ⟨ctype, some (.binary bytes), none⟩
        else if ctype = 9 then .ok ⟨ctype, some (.pathRef bytes), none⟩
        else .error "Inline value deserialization method missing"
    else if b1 / 64 = 3 then
      -- record address
      match rest with
      | a :: b :: c :: d :: e :: f :: _ =>
        let pageNr := readU32 a b c d
        let recordNr := readU16 e f
        let childPath :=
          match keyOrIndex with
          | .inl i => parent.path ++ [PathKey.idx i]
          | .inr k => parent.path ++ [PathKey.key k]
        let address : RecAddr := ⟨childPath, pageNr, recordNr⟩
        let _ := isArray
        if address = parent then .error "Circular reference in record data"
        else .ok ⟨ctype, none, some address⟩
      | _ => .error "truncated data"
    else .error "corrupt"
  | _ => .error "truncated data"

/-!
Write-path decisions (`_writeNode`, source lines 3168-3312, and the
tree-rebuild fallback of `_mergeNode`, source lines 3019-3052).
-/

/-- `BINARY_TREE_FILL_FACTOR_50` (source line 20). -/
def BINARY_TREE_FILL_FACTOR_50 : Nat := 50

/-- `BINARY_TREE_FILL_FACTOR_95` (source line 21). -/
def BINARY_TREE_FILL_FACTOR_95 : Nat := 95

/-- `minKeysForTreeCreation` (source line 3252). -/
def minKeysForTreeCreation : Nat := 100

/-- The regular expression `/^[0-9]+$/`: one or more decimal digits. -/
def isDigitsOnly (s : String) : Bool :=
  s.length > 0 && s.toList.all fun c => '0' ≤ c && c ≤ '9'

/-- One conjunct of `_writeNode`'s fill-factor test (source line 3257):
`typeof kvp.index === 'number' || (typeof kvp.key === 'string' &&
/^[0-9]+$/.test(kvp.key))`. -/
def numericLookingKvp (kvp : SerializedKeyValue) : Bool :=
  kvp.index.isSome
    || (match kvp.key with
        | some k => isDigitsOnly k
        | none => false)

/-- `_writeNode`'s tree-promotion decision (source line 3253):
`serialized.length > minKeysForTreeCreation`. -/
def writeNodeUsesKeyTree (serialized : List SerializedKeyValue) : Bool :=
  serialized.length > minKeysForTreeCreation

/-- `_writeNode`'s fill factor when a tree is built (source lines
3256-3259). -/
def writeNodeFillFactor (serialized : List SerializedKeyValue) : Nat :=
  if serialized.all numericLookingKvp then BINARY_TREE_FILL_FACTOR_50
  else BINARY_TREE_FILL_FACTOR_95

/-- One conjunct of the tree-rebuild fill-factor test of `_mergeNode`
(source line 3028): `typeof ch.keyOrIndex === 'number' || (typeof
ch.keyOrIndex === 'string' && /^[0-9]+$/.test(ch.keyOrIndex))`. -/
def numericLookingChange (keyOrIndex : KeyOrIndex) : Bool :=
  match keyOrIndex with
  | .inl _ => true
  | .inr s => isDigitsOnly s

/-- The fill factor used by `_mergeNode`'s tree rebuild (source lines
3027-3030), computed over the keys of the change set. -/
def mergeRebuildFillFactor (changes : List KeyOrIndex) : Nat :=
  if changes.all numericLookingChange then BINARY_TREE_FILL_FACTOR_50
  else BINARY_TREE_FILL_FACTOR_95

/-! Helper lemmas. -/

theorem foldl_add_shift (l : List Nat) : ∀ n : Nat,
    List.foldl (· + ·) n l = n + List.foldl (· + ·) 0 l := by
  induction l with
  | nil => intro n; simp
  | cons a t ih =>
    intro n
    simp only [List.foldl_cons]
    rw [ih (n + a), ih (0 + a)]
    omega

theorem totalAddresses_cons (r : StorageAddressRange) (l : List StorageAddressRange) :
    totalAddresses (r :: l) = r.length + totalAddresses l := by
  simp only [totalAddresses, List.map_cons, List.foldl_cons]
  rw [foldl_add_shift]
  omega

theorem tryMergeAdjacent_sum (range : StorageAddressRange)
    (l l₂ : List StorageAddressRange) (h : tryMergeAdjacent range l = some l₂) :
    totalAddresses l₂ = range.length + totalAddresses l := by
  induction l generalizing l₂ with
  | nil => simp [tryMergeAdjacent] at h
  | cons o rest ih =>
    simp only [tryMergeAdjacent] at h
    split at h
    · cases h
      rw [totalAddresses_cons, totalAddresses_cons]
      simp; omega
    · split at h
      · cases h
        rw [totalAddresses_cons, totalAddresses_cons]
        simp; omega
      · cases hrec : tryMergeAdjacent range rest with
        | none => rw [hrec] at h; simp at h
        | some r₂ =>
          rw [hrec] at h
          simp only [Option.map_some'] at h
          cases h
          rw [totalAddresses_cons, totalAddresses_cons, ih r₂ hrec]
          omega

theorem find?_filter_eq (l : List NLock) (p q : NLock → Bool) :
    (l.filter p).find? q = l.find? fun x => p x && q x := by
  induction l with
  | nil => rfl
  | cons a t ih =>
    simp only [List.filter_cons]
    cases hp : p a with
    | true =>
      simp only [if_true, List.find?, hp, Bool.true_and]
      cases hq : q a with
      | true => rfl
      | false => exact ih
    | false =>
      simp only [if_false, List.find?, hp, Bool.false_and]
      exact ih

theorem find?_append_none {α : Type} (l₁ l₂ : List α) (p : α → Bool)
    (h : l₁.find? p = none) : (l₁ ++ l₂).find? p = l₂.find? p := by
  induction l₁ with
  | nil => rfl
  | cons a t ih =>
    simp only [List.find?] at h ⊢
    cases hpa : p a with
    | true => rw [hpa] at h; simp at h
    | false =>
      rw [hpa] at h
      simp only [List.cons_append, List.find?, hpa]
      exact ih h

theorem readU16_u16be (n : Nat) (h : n < 65536) :
    readU16 (n / 256 % 256) (n % 256) = n := by
  simp only [readU16]
  omega

theorem readU32_u32be (n : Nat) (h : n < 4294967296) :
    readU32 (n / 16777216 % 256) (n / 65536 % 256) (n / 256 % 256) (n % 256) = n := by
  simp only [readU32]
  omega

theorem foldl_append_shift {α : Type} (g : α → List Nat) :
    ∀ (l : List α) (b : List Nat),
    List.foldl (fun acc x => acc ++ g x) b l
      = b ++ List.foldl (fun acc x => acc ++ g x) [] l := by
  intro l
  induction l with
  | nil => intro b; simp
  | cons x xs ih =>
    intro b
    simp only [List.foldl_cons]
    rw [ih (b ++ g x), ih (([] : List Nat) ++ g x)]
    simp

theorem parseChunkTable_type2_chain (pageSize lastChunkSize : Nat) (extra : List Nat) :
    ∀ (rs : List StorageAddressRange) (firstRange : StorageAddressRange)
      (acc : List StorageAddressRange),
    (∀ r ∈ rs, r.pageNr < 4294967296 ∧ r.recordNr < 65536 ∧ r.length < 65536) →
    lastChunkSize < 65536 →
    parseChunkTable pageSize firstRange acc
        ((rs.foldl
            (fun acc range =>
              acc ++ 2 :: (u32be range.pageNr ++ u16be range.recordNr ++ u16be range.length))
            []) ++ 0 :: u16be lastChunkSize ++ extra)
      = some (firstRange :: (acc ++ rs), lastChunkSize, extra) := by
  intro rs
  induction rs with
  | nil =>
    intro firstRange acc _ hlcs
    simp only [List.foldl_nil, List.nil_append, u16be, List.cons_append]
    rw [parseChunkTable, readU16_u16be lastChunkSize hlcs]
    simp
  | cons r rest ih =>
    intro firstRange acc hwf hlcs
    have hr := hwf r (by simp)
    have hfold : List.foldl
        (fun acc range =>
          acc ++ 2 :: (u32be range.pageNr ++ u16be range.recordNr ++ u16be range.length))
        [] (r :: rest)
        = (2 :: (u32be r.pageNr ++ u16be r.recordNr ++ u16be r.length))
          ++ List.foldl
              (fun acc range =>
                acc ++ 2 :: (u32be range.pageNr ++ u16be range.recordNr ++ u16be range.length))
              [] rest := by
      simp only [List.foldl_cons, List.nil_append]
      exact foldl_append_shift _ rest _
    rw [hfold]
    simp only [u32be, u16be, List.cons_append, List.nil_append, List.append_assoc]
    rw [parseChunkTable]
    rw [readU32_u32be r.pageNr hr.1, readU16_u16be r.recordNr hr.2.1,
      readU16_u16be r.length hr.2.2]
    have hihyp : ∀ x ∈ rest, x.pageNr < 4294967296 ∧ x.recordNr < 65536 ∧ x.length < 65536 :=
      fun x hx => hwf x (by simp [hx])
    have hstep := ih firstRange (acc ++ [⟨r.pageNr, r.recordNr, r.length⟩]) hihyp hlcs
    simp only [u32be, u16be, List.cons_append, List.nil_append, List.append_assoc] at hstep
    rw [hstep]

theorem find?_append_single {α : Type} (l : List α) (x : α) (p : α → Bool)
    (hx : p x = false) : (l ++ [x]).find? p = l.find? p := by
  induction l with
  | nil => simp [List.find?, hx]
  | cons a t ih =>
    simp only [List.cons_append, List.find?]
    cases p a with
    | true => rfl
    | false => exact ih

theorem isPrefixOf_length_le : ∀ (o p : List PathKey),
    List.isPrefixOf o p = true → o.length ≤ p.length := by
  intro o
  induction o with
  | nil => simp
  | cons a t ih =>
    intro p h
    cases p with
    | nil => simp [List.isPrefixOf] at h
    | cons b q =>
      simp only [List.isPrefixOf, Bool.and_eq_true] at h
      have := ih q h.2
      simp only [List.length_cons]
      omega

theorem isDescendantOf_eq_ancestorOrSelf (p o : Path) (hne : p ≠ o) :
    isDescendantOf p o = List.isPrefixOf o p := by
  unfold isDescendantOf
  by_cases ho : o = []
  · subst ho
    simp [List.isPrefixOf]
  · rw [if_neg ho, if_neg hne]
    by_cases hlen : o.length > p.length
    · rw [if_pos hlen]
      cases hpre : List.isPrefixOf o p with
      | false => rfl
      | true =>
        exfalso
        have := isPrefixOf_length_le o p hpre
        omega
    · rw [if_neg hlen]

theorem lockCond_eq_claimConflicts (path : Path) (tid : String) (forWriting : Bool)
    (l : NLock) :
    ((decide (l.tid ≠ tid) && decide (l.state = LockState.locked))
        && ((forWriting || l.forWriting)
          && (decide (path = l.path) || isDescendantOf path l.path)))
      = claimConflicts path tid forWriting l := by
  unfold claimConflicts
  by_cases hpo : path = l.path
  · subst hpo
    cases ht : decide (l.tid ≠ tid) <;> cases hs : decide (l.state = LockState.locked)
      <;> cases forWriting <;> cases l.forWriting <;> simp [ht, hs]
  · have hd : isDescendantOf path l.path = List.isPrefixOf l.path path :=
      isDescendantOf_eq_ancestorOrSelf path l.path hpo
    have h₁ : decide (path = l.path) = false := by simp [hpo]
    have h₂ : decide (l.path = path) = false := by
      simp only [decide_eq_false_iff_not]
      exact fun h => hpo h.symm
    have h₃ : decide (l.path ≠ path) = true := by
      simp only [decide_eq_true_eq, ne_eq]
      exact fun h => hpo h.symm
    rw [hd]
    cases ht : decide (l.tid ≠ tid) <;> cases hs : decide (l.state = LockState.locked)
      <;> cases forWriting <;> cases l.forWriting
      <;> cases hp : List.isPrefixOf l.path path <;> simp [ht, hs, h₁, h₂, h₃, hp]

theorem allowLock_push (locks : List NLock) (path : Path) (tid : String)
    (forWriting : Bool) :
    allowLock (locks ++ [⟨tid, path, forWriting, LockState.pending⟩]) path tid forWriting
      = locks.find? (claimConflicts path tid forWriting) := by
  unfold allowLock
  rw [find?_filter_eq]
  have hfun : (fun x : NLock =>
      (decide (x.tid ≠ tid) && decide (x.state = LockState.locked))
        && ((forWriting || x.forWriting)
          && (decide (path = x.path) || isDescendantOf path x.path)))
      = claimConflicts path tid forWriting :=
    funext fun x => lockCond_eq_claimConflicts path tid forWriting x
  rw [hfun]
  exact find?_append_single locks _ _ (by simp [claimConflicts])

/-! Claim theorems. -/

/-- C1, counterexample.  The claim says `NodeLock.lock` grants a request
immediately if and only if no conflicting lock exists (different tid,
`LOCKED`, path equal to or an ancestor of the requested path, at least one
for writing).  With the lock list holding a single *expired* lock of the
requesting transaction, no lock satisfies the claim's conflict condition,
yet the request is not granted: `NodeLock.lock` rejects it outright
(source line 598-600: `lock on tid ... has expired, not allowed to
continue`). -/
theorem lockRequest_expired_counterexample :
    claimConflicts [PathKey.key "q"] "t" true
        ⟨"t", [PathKey.key "p"], true, LockState.expired⟩ = false
    ∧ lockRequest [⟨"t", [PathKey.key "p"], true, LockState.expired⟩]
        [PathKey.key "q"] "t" true = LockRequestResult.rejectedExpired
    ∧ LockRequestResult.rejectedExpired.isGranted = false :=
  ⟨rfl, rfl, rfl⟩

/-- C1 (amended): provided no lock of the requesting transaction is in state
`EXPIRED` (such a request is rejected outright), `NodeLock.lock` grants the
request immediately if and only if no lock exists whose transaction id
differs from the requesting tid, whose state is `LOCKED`, and whose path
equals or is an ancestor of the requested path, with at least one of the
existing and requested locks being for writing; when not granted, the
request is left `PENDING` in the lock list with its `waitingFor` pointer set
to the first such conflicting lock. -/
theorem lockRequest_grant_policy (locks : List NLock) (path : Path) (tid : String)
    (forWriting : Bool)
    (hNoExpired : ∀ l ∈ locks, ¬(l.tid = tid ∧ l.state = LockState.expired)) :
    ((lockRequest locks path tid forWriting).isGranted = true
      ↔ ∀ l ∈ locks, claimConflicts path tid forWriting l = false)
    ∧ ∀ ls w, lockRequest locks path tid forWriting = .pending ls w →
        ls = locks ++ [⟨tid, path, forWriting, LockState.pending⟩]
        ∧ locks.find? (claimConflicts path tid forWriting) = some w := by
  have hAny : (locks.any fun l => l.tid = tid && l.state = LockState.expired) = false := by
    rw [List.any_eq_false]
    intro l hl
    have h := hNoExpired l hl
    simp only [Bool.and_eq_true, decide_eq_true_eq]
    exact fun hc => h hc
  unfold lockRequest
  simp only [hAny, Bool.false_eq_true, if_false]
  rw [allowLock_push]
  cases hfind : locks.find? (claimConflicts path tid forWriting) with
  | none =>
    refine ⟨?_, ?_⟩
    · simp only [LockRequestResult.isGranted, true_iff]
      intro l hl
      have := List.find?_eq_none.mp hfind l hl
      simpa using this
    · intro ls w h
      simp at h
  | some w₀ =>
    refine ⟨?_, ?_⟩
    · simp only [LockRequestResult.isGranted, Bool.false_eq_true, false_iff]
      intro hall
      have hw₀ := List.find?_some hfind
      have hmem := List.mem_of_find?_eq_some hfind
      rw [hall w₀ hmem] at hw₀
      simp at hw₀
    · intro ls w h
      simp only [LockRequestResult.pending.injEq] at h
      exact ⟨h.1.symm, congrArg some h.2⟩

/-- C1, witness: on the empty lock list a write request is granted at
once. -/
theorem lockRequest_grant_policy_witness :
    (lockRequest [] [PathKey.key "a"] "t" true).isGranted = true :=
  (lockRequest_grant_policy [] [PathKey.key "a"] "t" true (by simp)).1.mpr (by simp)

/-- C2.  The claim says every primitive child value eligible for tiny or
inline storage — binaries below `maxInlineValueSize` included — serializes
through `_serializeValue`/`_getValueBytes` and decodes back structurally
equal.  For binaries this fails before any bytes are produced: with
`maxInlineValueSize = 50`, a one-byte `ArrayBuffer` takes
`_serializeValue`'s inline branch, which returns the plain object
`{ type, bytes: val }` — not a `SerializedKeyValue`, contradicting
`_mergeNode`'s own assertion (source line 2973) — and `_getValueBytes` then
throws a `TypeError`, because the `ArrayBuffer` stored in `bytes` has no
`length` or `forEach` (source lines 3371-3375).  The round trip therefore
never completes for any non-empty small binary. -/
theorem serializeBinary_inline_throws :
    serializeValue 50 (Sum.inr "k") (JSValue.binary [7])
        = SerResult.skv { type := 8, bytes := some (JsBytes.abuf [7]), isSKV := false }
    ∧ getValueBytes { type := 8, bytes := some (JsBytes.abuf [7]), isSKV := false }
        = Except.error "TypeError: data.forEach is not a function" :=
  ⟨rfl, rfl⟩

/-- A sample cache for the `NodeCache` claims: two entries, one at path `a`
and one at its descendant `a/b`. -/
def sampleEntryA : NodeCacheEntry := ⟨⟨false, some [PathKey.key "a"], some 1, some 2⟩⟩

/-- The entry at path `a/b` of the sample cache. -/
def sampleEntryAB : NodeCacheEntry :=
  ⟨⟨false, some [PathKey.key "a", PathKey.key "b"], some 3, some 4⟩⟩

/-- The sample cache itself. -/
def sampleCache : Cache :=
  [(some [PathKey.key "a"], sampleEntryA),
   (some [PathKey.key "a", PathKey.key "b"], sampleEntryAB)]

/-- C3.  The claim says `NodeCache.invalidate(p, markAsDeleted)` removes (or
tombstones) exactly the cached entries at `p` and its descendants, leaving
the rest unchanged.  Evaluating the code on a cache holding `p = a` and its
descendant `a/b`: `invalidate(a, false)` removes *nothing* — the filter
selects every key (its first disjunct `cachedPath === cachedPath` is a
tautology), but the subsequent `remove` receives the cache *entry* instead
of an address, reads its nonexistent `.path` property, and deletes only the
nonexistent key `"undefined"`.  The entries at `a` and `a/b` both
survive. -/
theorem nodeCacheInvalidate_removes_nothing :
    nodeCacheInvalidate sampleCache [PathKey.key "a"] false = sampleCache
    ∧ nodeCacheFind (nodeCacheInvalidate sampleCache [PathKey.key "a"] false)
        [PathKey.key "a"] = some sampleEntryA.address :=
  ⟨rfl, rfl⟩

/-- C8.  The claim says that after `NodeCache.invalidate(p, markAsDeleted =
true)`, `find(p)` returns null, and that `find` never returns a removed
entry.  Evaluating the code on the sample cache: `invalidate(a, true)`
leaves the entry at `a` untouched (the `RemovedNodeAddress` is built from
the cache *entry*, whose `.path` is `undefined`, so the tombstone lands
under the junk key `"undefined"`), and `find(a)` still returns the old
address.  The `entry instanceof RemovedNodeAddress` test in `find` can never
be true, because the cache stores `NodeCacheEntry` objects. -/
theorem nodeCacheFind_after_markAsDeleted :
    nodeCacheFind (nodeCacheInvalidate sampleCache [PathKey.key "a"] true)
        [PathKey.key "a"] = some sampleEntryA.address
    ∧ nodeCacheFind (nodeCacheInvalidate sampleCache [PathKey.key "a"] true)
        [PathKey.key "a", PathKey.key "b"] = some sampleEntryAB.address :=
  ⟨rfl, rfl⟩

/-- C4, counterexample.  The claim says that when the merge/overwrite path
of `Node.update` fails, the promise returned by `Node.update` rejects with
that error.  At a concrete write error the promise instead *resolves* with
`false`: the final `.catch` handler releases the locks and returns `false`
(source lines 2313-2318). -/
theorem nodeUpdate_error_counterexample :
    (nodeUpdateResult (JsPromise.rejected "disk write failed")
        ⟨none, some ⟨"t", [PathKey.key "a"], true, LockState.locked⟩⟩).1
      = JsPromise.resolved false
    ∧ (nodeUpdateResult (JsPromise.rejected "disk write failed")
        ⟨none, some ⟨"t", [PathKey.key "a"], true, LockState.locked⟩⟩).1
      ≠ JsPromise.rejected "disk write failed" :=
  ⟨rfl, by decide⟩

/-- C4 (amended): when the merge/overwrite path of `Node.update` fails, the
held write lock (and the event-data lock, when held) is released — its state
set to `DONE` — and the error is caught and logged: the promise returned by
`Node.update` resolves with `false` rather than rejecting with the
error. -/
theorem nodeUpdate_error_releases_lock (err : String) (eventDataLock : Option NLock)
    (l : NLock) :
    nodeUpdateResult (JsPromise.rejected err) ⟨eventDataLock, some l⟩
      = (JsPromise.resolved false,
         ⟨releaseLock eventDataLock, some { l with state := LockState.done }⟩) :=
  rfl

/-- C5: when a node's children are serialized by `_writeNode`, the record
header carries `FLAG_KEY_TREE` (0x40) exactly when the serialized child list
has more than 100 entries (the linear layout is used at 100 or fewer), and
whenever a tree is built the fill factor is 50 if every examined key is
numeric-looking and 95 otherwise — on write the examined keys are the
serialized entries' keys/indexes, on `_mergeNode`'s rebuild the change
set's. -/
theorem treePromotion_and_fillFactor (serialized : List SerializedKeyValue)
    (valueType : Nat) (changes : List KeyOrIndex) (hnib : valueType < 16) :
    (headerByte0 valueType (writeNodeUsesKeyTree serialized) &&& 64 = 64
        ↔ serialized.length > 100)
    ∧ (writeNodeFillFactor serialized = 50
        ↔ ∀ kvp ∈ serialized, numericLookingKvp kvp = true)
    ∧ (writeNodeFillFactor serialized = 95
        ↔ ¬∀ kvp ∈ serialized, numericLookingKvp kvp = true)
    ∧ (mergeRebuildFillFactor changes = 50
        ↔ ∀ k ∈ changes, numericLookingChange k = true)
    ∧ (mergeRebuildFillFactor changes = 95
        ↔ ¬∀ k ∈ changes, numericLookingChange k = true) := by
  have hw : (writeNodeFillFactor serialized = 50
        ↔ ∀ kvp ∈ serialized, numericLookingKvp kvp = true)
      ∧ (writeNodeFillFactor serialized = 95
        ↔ ¬∀ kvp ∈ serialized, numericLookingKvp kvp = true) := by
    unfold writeNodeFillFactor BINARY_TREE_FILL_FACTOR_50 BINARY_TREE_FILL_FACTOR_95
    cases hall : serialized.all numericLookingKvp with
    | true =>
      rw [if_pos rfl]
      rw [List.all_eq_true] at hall
      exact ⟨iff_of_true rfl hall, iff_of_false (by decide) fun hno => hno hall⟩
    | false =>
      rw [if_neg (by simp)]
      have hno : ¬∀ kvp ∈ serialized, numericLookingKvp kvp = true := by
        intro h
        rw [List.all_eq_true.mpr h] at hall
        simp at hall
      exact ⟨iff_of_false (by decide) hno, iff_of_true rfl hno⟩
  have hm : (mergeRebuildFillFactor changes = 50
        ↔ ∀ k ∈ changes, numericLookingChange k = true)
      ∧ (mergeRebuildFillFactor changes = 95
        ↔ ¬∀ k ∈ changes, numericLookingChange k = true) := by
    unfold mergeRebuildFillFactor BINARY_TREE_FILL_FACTOR_50 BINARY_TREE_FILL_FACTOR_95
    cases hall : changes.all numericLookingChange with
    | true =>
      rw [if_pos rfl]
      rw [List.all_eq_true] at hall
      exact ⟨iff_of_true rfl hall, iff_of_false (by decide) fun hno => hno hall⟩
    | false =>
      rw [if_neg (by simp)]
      have hno : ¬∀ k ∈ changes, numericLookingChange k = true := by
        intro h
        rw [List.all_eq_true.mpr h] at hall
        simp at hall
      exact ⟨iff_of_false (by decide) hno, iff_of_true rfl hno⟩
  refine ⟨?_, hw.1, hw.2, hm.1, hm.2⟩
  by_cases hgt : serialized.length > 100
  · have hkt : writeNodeUsesKeyTree serialized = true := by
      unfold writeNodeUsesKeyTree minKeysForTreeCreation
      exact decide_eq_true hgt
    rw [hkt]
    unfold headerByte0
    rw [if_pos rfl]
    refine iff_of_true ?_ hgt
    interval_cases valueType <;> decide
  · have hkt : writeNodeUsesKeyTree serialized = false := by
      unfold writeNodeUsesKeyTree minKeysForTreeCreation
      exact decide_eq_false hgt
    rw [hkt]
    unfold headerByte0
    rw [if_neg (by simp)]
    refine iff_of_false ?_ hgt
    interval_cases valueType <;> decide

/-- C5, witness: a nibble value type, an empty serialized list and an empty
change set. -/
theorem treePromotion_and_fillFactor_witness :
    writeNodeFillFactor [] = 50 ∧ mergeRebuildFillFactor [] = 50 := by
  have h := treePromotion_and_fillFactor [] 1 [] (by omega)
  exact ⟨h.2.1.mpr (by simp), h.2.2.2.1.mpr (by simp)⟩

/-- C6.  The claim says `_valueFitsInline` accepts a binary whose byte
length is strictly below `maxInlineValueSize`.  The code compares
`value.length < maxInlineValueSize`, but an `ArrayBuffer` has no `length`
property (only `byteLength`), so the comparison is
`undefined < maxInlineValueSize` — false for *every* binary, the empty one
included; the sibling branch in `_serializeValue` (source line 3431) uses
`byteLength` correctly, per the claim. -/
theorem valueFitsInline_binary_divergence :
    valueFitsInline 50 (JSValue.binary []) = false
    ∧ claimFitsInline 50 (JSValue.binary []) = true :=
  ⟨rfl, rfl⟩

/-- C7, counterexample.  The claim says the 2-byte payload of the type-1
chunk-table entry holds the first range's length *minus one* (the additional
length beyond the implicit 1 record).  For an allocation of one 3-record
range, the header written by `_write` is `[1, 0, 3, 0, lastChunkHi,
lastChunkLo]`: the payload is the full length 3, not 2 — `_write` stores
`range.length` unchanged (source line 3660), despite the in-file format
comment saying `(actual nr - 1)` (source line 3531). -/
theorem chunkTable_type1_payload_counterexample :
    chunkTableBytes (toChunkTable [⟨0, 0, 3⟩]) 10 = [1, 0, 3, 0, 0, 10]
    ∧ readU16 0 3 = 3
    ∧ readU16 0 3 ≠ 3 - 1 :=
  ⟨rfl, rfl, by decide⟩

/-- C7 (amended): for a record whose allocation needs a chunk table, the
2-byte payload of the type-1 entry written by `_write` holds the first
range's *full* length (not length minus one, as the in-file format comment
would suggest), and `readHeader` assigns that payload directly as the first
range's length, so writing a chunk table and parsing it back reconstructs
the allocation's ranges and last-chunk length exactly. -/
theorem chunkTable_roundtrip (first : StorageAddressRange)
    (rest : List StorageAddressRange) (lastChunkSize pageSize : Nat) (extra : List Nat)
    (hwf : ∀ r ∈ first :: rest,
      r.pageNr < 4294967296 ∧ r.recordNr < 65536 ∧ r.length < 65536)
    (hlcs : lastChunkSize < 65536) :
    parseChunkTable pageSize ⟨first.pageNr, first.recordNr, 1⟩ []
        (chunkTableBytes (toChunkTable (first :: rest)) lastChunkSize ++ extra)
      = some (first :: rest, lastChunkSize, extra)
    ∧ (¬(rest = [] ∧ first.length = 1) →
        (chunkTableBytes (toChunkTable (first :: rest)) lastChunkSize).take 3
          = [1, first.length / 256 % 256, first.length % 256]) := by
  have hfirst := hwf first (by simp)
  by_cases hsingle : rest = [] ∧ first.length = 1
  · obtain ⟨hrest, hlen⟩ := hsingle
    subst hrest
    refine ⟨?_, fun hno => absurd ⟨rfl, hlen⟩ hno⟩
    show parseChunkTable pageSize ⟨first.pageNr, first.recordNr, 1⟩ []
        (chunkTableBytes (toChunkTable [first]) lastChunkSize ++ extra)
      = some ([first], lastChunkSize, extra)
    have h0 : toChunkTable [first]
        = if first.length = 1
          then [⟨0, first.pageNr, first.recordNr, first.length⟩]
          else [⟨1, first.pageNr, first.recordNr, first.length⟩] := rfl
    rw [h0, if_pos hlen]
    show parseChunkTable pageSize ⟨first.pageNr, first.recordNr, 1⟩ []
        (0 :: (lastChunkSize / 256 % 256) :: (lastChunkSize % 256) :: extra)
      = some ([first], lastChunkSize, extra)
    rw [parseChunkTable, readU16_u16be lastChunkSize hlcs]
    have heta : first = ⟨first.pageNr, first.recordNr, 1⟩ := by
      cases first
      simp_all
    rw [← heta]
  · have htct : toChunkTable (first :: rest)
        = ⟨1, first.pageNr, first.recordNr, first.length⟩
          :: rest.map fun r => ⟨2, r.pageNr, r.recordNr, r.length⟩ := by
      cases rest with
      | nil =>
        have h0 : toChunkTable [first]
            = if first.length = 1
              then [⟨0, first.pageNr, first.recordNr, first.length⟩]
              else [⟨1, first.pageNr, first.recordNr, first.length⟩] := rfl
        rw [h0, if_neg fun h => hsingle ⟨rfl, h⟩]
        rfl
      | cons x xs => rfl
    have hbytes : chunkTableBytes (toChunkTable (first :: rest)) lastChunkSize
        = 1 :: u16be first.length
          ++ (rest.foldl
              (fun acc r =>
                acc ++ 2 :: (u32be r.pageNr ++ u16be r.recordNr ++ u16be r.length))
              [])
          ++ 0 :: u16be lastChunkSize := by
      rw [htct]
      unfold chunkTableBytes
      simp only [List.foldl_cons]
      have hmap2 : ∀ (rs : List StorageAddressRange) (b : List Nat),
          List.foldl
            (fun acc range =>
              if range.type = 1 then acc ++ 1 :: u16be range.length
              else if range.type = 2 then
                acc ++ 2 :: (u32be range.pageNr ++ u16be range.recordNr
                  ++ u16be range.length)
              else acc)
            b (rs.map fun r =>
                (⟨2, r.pageNr, r.recordNr, r.length⟩ : NodeChunkTableRange))
          = List.foldl
              (fun acc r =>
                acc ++ 2 :: (u32be r.pageNr ++ u16be r.recordNr ++ u16be r.length))
              b rs := by
        intro rs
        induction rs with
        | nil => intro b; rfl
        | cons x xs ih =>
          intro b
          simp only [List.map_cons, List.foldl_cons]
          exact ih _
      rw [hmap2 rest]
      rw [foldl_append_shift
        (fun r => 2 :: (u32be r.pageNr ++ u16be r.recordNr ++ u16be r.length)) rest]
      rfl
    refine ⟨?_, fun _ => by rw [hbytes]; simp [u16be]⟩
    rw [hbytes]
    simp only [u16be, List.cons_append, List.nil_append, List.append_assoc]
    rw [parseChunkTable, readU16_u16be first.length hfirst.2.2]
    have hchain := parseChunkTable_type2_chain pageSize lastChunkSize extra rest
      ⟨first.pageNr, first.recordNr, first.length⟩ []
      (fun r hr => hwf r (by simp [hr])) hlcs
    simp only [u16be, List.cons_append, List.nil_append, List.append_assoc] at hchain
    rw [hchain]

/-- C7, witness: a two-range allocation (first range of length 3 plus a
non-contiguous range) round-trips through the chunk table. -/
theorem chunkTable_roundtrip_witness :
    parseChunkTable 1024 ⟨0, 0, 1⟩ []
        (chunkTableBytes (toChunkTable [⟨0, 0, 3⟩, ⟨1, 5, 2⟩]) 7 ++ [9, 9])
      = some ([⟨0, 0, 3⟩, ⟨1, 5, 2⟩], 7, [9, 9]) :=
  (chunkTable_roundtrip ⟨0, 0, 3⟩ [⟨1, 5, 2⟩] 7 1024 [9, 9]
    (by decide) (by decide)).1

/-- C9.  The claim says a child entry with RECORD value location whose
stored 6-byte address equals the page nr and record nr of the record being
read is rejected with a corruption error.  Evaluating the decoder on a
record at page 1, record 2 whose child `k` stores the address page 1,
record 2: the child is *delivered* with that address instead of an error —
the guard uses `NodeAddress.equals`, which also compares the `path` fields,
and the child's path (`p/k`) never equals the parent's (`p`), so the
`Circular reference in record data` throw is unreachable. -/
theorem circularReference_not_rejected :
    getValueFromBinary ⟨[PathKey.key "p"], 1, 2⟩ false (Sum.inr "k")
        [16, 192, 0, 0, 0, 1, 0, 2]
      = Except.ok ⟨1, none, some ⟨[PathKey.key "p", PathKey.key "k"], 1, 2⟩⟩ := by
  rfl

/-- C10: `NodeAllocation.normalize` preserves the total number of addresses
— coalescing adjacent ranges on the same page neither gains nor loses any
record address (this is also the source's own `console.assert`, line
335). -/
theorem normalize_preserves_totalAddresses (ranges : List StorageAddressRange) :
    totalAddresses (normalize ranges) = totalAddresses ranges := by
  induction ranges using normalize.induct with
  | case1 => rw [normalize]
  | case2 range rest rest₂ h hlt ih =>
    have hstep : normalize (range :: rest) = normalize rest₂ := by
      rw [normalize]
      split
      · next rest' heq =>
        rw [heq] at h
        cases h
        rfl
      · next heq =>
        rw [heq] at h
        cases h
    rw [hstep, ih, tryMergeAdjacent_sum range rest rest₂ h, totalAddresses_cons]
  | case3 range rest h ih =>
    have hstep : normalize (range :: rest) = range :: normalize rest := by
      rw [normalize]
      split
      · next rest' heq =>
        rw [heq] at h
        cases h
      · next heq => rfl
    rw [hstep, totalAddresses_cons, totalAddresses_cons, ih]

end AceBase
